import Mathlib

/-
  Verification of MD2Slack (src/md2slack/renderer.py).

  The renderer turns a list of parsed Markdown tokens into Slack-flavoured
  text.  Python strings are modelled as `List Char` (Python `len`, slicing
  and `ljust` all count code points, as `List Char` does).  Python regexes
  appearing in the source are embedded as explicit recursive matchers whose
  backtracking behaviour (leftmost match, lazy `(.+?)`) is reproduced
  directly.  Whitespace predicates model the ASCII range of Python
  `str.strip()` / regex `\s`, which is the range exercised by this
  development.
-/

namespace MD2Slack

/-- ASCII whitespace as recognised by Python `str.strip()` and by the regex
class `\s`: space, tab, newline, carriage return, vertical tab, form feed. -/
def pyIsSpace (c : Char) : Bool :=
  c = ' ' || c = '\t' || c = '\n' || c = '\r' || c = '\u000b' || c = '\u000c'

/-- Characters matched by the regex metacharacter `.` (anything but newline). -/
def isDot (c : Char) : Bool := c ≠ '\n'

/-- Python `s.strip()`: drop leading and trailing whitespace. -/
def pyStrip (s : List Char) : List Char :=
  ((s.dropWhile pyIsSpace).reverse.dropWhile pyIsSpace).reverse

/-- Python `s.strip('|')`: drop every leading and every trailing `'|'`. -/
def stripPipes (s : List Char) : List Char :=
  ((s.dropWhile (fun c => c = '|')).reverse.dropWhile (fun c => c = '|')).reverse

/-- Python `s.split(sep)` for a one-character separator: `"".split(sep)` is
`[""]`, separators at the ends produce empty pieces. -/
def splitOnChar (sep : Char) : List Char → List (List Char)
  | [] => [[]]
  | x :: xs =>
    if x = sep then [] :: splitOnChar sep xs
    else
      match splitOnChar sep xs with
      | [] => [[x]]
      | h :: t => (x :: h) :: t

/-- Python `sep.join(pieces)`. -/
def joinWith (sep : List Char) : List (List Char) → List Char
  | [] => []
  | [x] => x
  | x :: y :: t => x ++ sep ++ joinWith sep (y :: t)

/-- Python `cell.ljust(w)`: pad on the right with spaces up to width `w`. -/
def ljust (s : List Char) (w : Nat) : List Char :=
  s ++ List.replicate (w - s.length) ' '

/-- The backquote character (U+0060). -/
def backquote : Char := '\u0060'

/-- A code fence: three backquotes. -/
def fence : List Char := [backquote, backquote, backquote]

/-- The non-blank lines of the table markup:
`[... for row in table_md.strip().split('\n') if row.strip()]`. -/
def tableLines (table_md : List Char) : List (List Char) :=
  (splitOnChar '\n' (pyStrip table_md)).filter fun row => pyStrip row ≠ []

/-- `row.strip('|').split('|')` followed by the per-cell `.strip()` of the
second comprehension: the cells of one table line. -/
def rowCells (line : List Char) : List (List Char) :=
  (splitOnChar '|' (stripPipes line)).map pyStrip

/-- `rows_raw = [row.strip('|').split('|') for row in ... if row.strip()]`. -/
def rows_raw (table_md : List Char) : List (List (List Char)) :=
  (tableLines table_md).map fun row => splitOnChar '|' (stripPipes row)

/-- `rows = [[cell.strip() for cell in row] for row in rows_raw]`. -/
def tableRows (table_md : List Char) : List (List (List Char)) :=
  (rows_raw table_md).map fun row => row.map pyStrip

/-- `max_cols = max(len(row) for row in rows)` (the list is non-empty there;
`foldr max 0` agrees with Python `max` on non-empty lists of naturals). -/
def max_cols (rows : List (List (List Char))) : Nat :=
  (rows.map List.length).foldr max 0

/-- `padded_rows = [row + [''] * (max_cols - len(row)) for row in rows]`. -/
def padded_rows (rows : List (List (List Char))) (mc : Nat) :
    List (List (List Char)) :=
  rows.map fun row => row ++ List.replicate (mc - row.length) []

/-- `col_widths = [max(len(cell) for cell in column) for column in zip(*padded_rows)]`:
on the padded (rectangular) rows `zip(*...)` is the transpose, so column `i`
collects cell `i` of every row. -/
def col_widths (padded : List (List (List Char))) (mc : Nat) : List Nat :=
  (List.range mc).map fun i =>
    ((padded.map fun row => (row.getD i []).length).foldr max 0)

/-- The separator `" | "` used between table cells. -/
def sepCells : List Char := [' ', '|', ' ']

/-- `" | ".join(cell.ljust(col_widths[idx]) for idx, cell in enumerate(row))`;
the index access `col_widths[idx]` is modelled with `getD` (in the program
every padded row has exactly `max_cols` cells, so the index is in range). -/
def formatted_row (ws : List Nat) (row : List (List Char)) : List Char :=
  joinWith sepCells (row.enum.map fun p => ljust p.2 (ws.getD p.1 0))

/-- `SlackRenderer._format_table`. -/
def format_table (table_md : List Char) : List Char :=
  let rows := tableRows table_md
  if rows = [] then fence ++ '\n' :: fence
  else
    let mc := max_cols rows
    let padded := padded_rows rows mc
    let ws := col_widths padded mc
    fence ++ '\n' :: (joinWith ['\n'] (padded.map (formatted_row ws)) ++ '\n' :: fence)

/-- A run of `k` asterisks, as matched by `\*{k}`. -/
def stars (k : Nat) : List Char := List.replicate k '*'

/-- Lazy search for `(.+?)\*{k}` starting at the current position: consume
inner characters one at a time (each must match `.`), preferring to close
with `k` asterisks as early as possible; returns the inner text and the
remainder after the closing asterisks. -/
def findClose (k : Nat) : List Char → Option (List Char × List Char)
  | [] => none
  | x :: xs =>
    if x = '\n' then none
    else if xs.take k = stars k then some ([x], xs.drop k)
    else
      match findClose k xs with
      | some p => some (x :: p.1, p.2)
      | none => none

/-- A match of `\*{k}(.+?)\*{k}` anchored at the start of `s`, with the lazy
group: the opening asterisks, then the shortest closable inner text. -/
def matchStars (k : Nat) (s : List Char) : Option (List Char × List Char) :=
  if s.take k = stars k then findClose k (s.drop k) else none

/-- The scanning loop of `re.sub` with an explicit fuel so that the
recursion is structural: the fuel bounds the number of scanning steps and,
whenever it is at least the length of the list, it never runs out
(`subStarsAux_congr` below). -/
def subStarsAux (k : Nat) : Nat → List Char → List Char
  | _, [] => []
  | 0, l => l
  | fuel + 1, x :: xs =>
    match matchStars k (x :: xs) with
    | some p => p.1 ++ subStarsAux k fuel p.2
    | none => x :: subStarsAux k fuel xs

/-- `re.sub(pattern, r'\1', s)` for `pattern = \*{k}(.+?)\*{k}`: replace every
non-overlapping leftmost lazy match by its inner group, keeping all other
text. -/
def subStars (k : Nat) (l : List Char) : List Char := subStarsAux k l.length l

/-- `re.search(pattern, s)` viewed as a Boolean, for `pattern = \*{k}(.+?)\*{k}`. -/
def searchStars (k : Nat) : List Char → Bool
  | [] => false
  | x :: xs => (matchStars k (x :: xs)).isSome || searchStars k xs

/-- `re.fullmatch(r'\*{k}(.+?)\*{k}', s)` returning the group: the whole
string must be `k` asterisks, a non-empty newline-free middle, and `k`
closing asterisks; the middle is forced to be `s[k : len - k]`, which is
also what the anchored `re.sub(r'^\*{k}(.+?)\*{k}$', r'\1', s)` of the
source produces on such a string. -/
def fullmatchStars (k : Nat) (s : List Char) : Option (List Char) :=
  let n := s.length
  if 2 * k + 1 ≤ n ∧ s.take k = stars k ∧ s.drop (n - k) = stars k ∧
      ((s.drop k).take (n - 2 * k)).all isDot then
    some ((s.drop k).take (n - 2 * k))
  else none

/-- `re.match(r'^\s*([-*])\s+(.*)', value)` returning group 2: after leading
whitespace, a `-` or `*` bullet, at least one whitespace character, then the
rest of the line. -/
def bulletMatch (value : List Char) : Option (List Char) :=
  match value.dropWhile pyIsSpace with
  | [] => none
  | c :: cs =>
    if c = '-' || c = '*' then
      match cs with
      | [] => none
      | d :: _ =>
        if pyIsSpace d then some ((cs.dropWhile pyIsSpace).takeWhile isDot)
        else none
    else none

/-- The literal bullet text of the source line
`output.append(f"{quote_prefix} â€¢ {list_content}")`: the file's bytes
decode to the three characters U+00E2, U+20AC, U+00A2 (a bullet U+2022 whose
UTF-8 bytes were re-decoded as cp1252), not to U+2022. -/
def bulletGlyph : List Char := ['\u00E2', '\u20AC', '\u00A2']

/-- Slack bold+italic wrapping `*_..._*` of the HEADER branches. -/
def wrapBoldItalic (inner : List Char) : List Char :=
  '*' :: '_' :: (inner ++ ['_', '*'])

/-- Slack bold wrapping `*...*` of the HEADER branches. -/
def wrapBold (inner : List Char) : List Char := '*' :: (inner ++ ['*'])

/-- The HEADER regex cascade of `SlackRenderer.render`: three full-string
matches, three embedded-match substitutions, then the fallback that removes
every asterisk run (`re.sub(r'\*{1,3}', '', value)` deletes every asterisk)
and wraps `value` in bold. -/
def headerLine (ind raw value : List Char) : List Char :=
  match fullmatchStars 3 raw with
  | some inner => ind ++ wrapBoldItalic inner
  | none =>
    match fullmatchStars 2 raw with
    | some inner => ind ++ wrapBold inner
    | none =>
      match fullmatchStars 1 raw with
      | some inner => ind ++ wrapBoldItalic inner
      | none =>
        if searchStars 3 raw then ind ++ wrapBoldItalic (subStars 3 raw)
        else if searchStars 2 raw then ind ++ wrapBold (subStars 2 raw)
        else if searchStars 1 raw then ind ++ wrapBoldItalic (subStars 1 raw)
        else ind ++ wrapBold (value.filter fun c => c ≠ '*')

/-- One parsed Markdown token.  Python tokens are dicts; each constructor
carries the fields the renderer reads for that `type` string.  `indent` is
`Option Nat` because the source reads it as `token.get('indent', 0)`, and a
HEADER's `raw` is `Option` because of `token.get("raw", "")`.  `other`
stands for any `type` string outside the ten recognised ones. -/
inductive Token where
  | hrule (indent : Option Nat)
  | paragraph (indent : Option Nat) (value : List Char)
  | paragraphBreak (indent : Option Nat)
  | codeBlock (indent : Option Nat) (value : List Char)
  | table (indent : Option Nat) (value : List Char)
  | blockQuote (indent : Option Nat) (level : Nat) (value : List Char)
  | header (indent : Option Nat) (raw : Option (List Char)) (value : List Char)
  | numberedList (indent : Option Nat) (number : Nat) (value : List Char)
  | letteredList (indent : Option Nat) (bullet : List Char) (value : List Char)
  | unorderedList (indent : Option Nat) (bullet : List Char) (value : List Char)
  | other (indent : Option Nat) (value : List Char)
  deriving DecidableEq

/-- The `type` strings the dispatcher compares against. -/
inductive TokenType where
  | HRULE
  | PARAGRAPH
  | PARAGRAPH_BREAK
  | CODE_BLOCK
  | TABLE
  | BLOCK_QUOTE
  | HEADER
  | NUMBERED_LIST
  | LETTERED_LIST
  | UNORDERED_LIST
  | OTHER
  deriving DecidableEq

/-- `token['type']`. -/
def Token.type : Token → TokenType
  | .hrule _ => .HRULE
  | .paragraph _ _ => .PARAGRAPH
  | .paragraphBreak _ => .PARAGRAPH_BREAK
  | .codeBlock _ _ => .CODE_BLOCK
  | .table _ _ => .TABLE
  | .blockQuote _ _ _ => .BLOCK_QUOTE
  | .header _ _ _ => .HEADER
  | .numberedList _ _ _ => .NUMBERED_LIST
  | .letteredList _ _ _ => .LETTERED_LIST
  | .unorderedList _ _ _ => .UNORDERED_LIST
  | .other _ _ => .OTHER

/-- The token's raw `indent` field, when present. -/
def Token.indentOpt : Token → Option Nat
  | .hrule i => i
  | .paragraph i _ => i
  | .paragraphBreak i => i
  | .codeBlock i _ => i
  | .table i _ => i
  | .blockQuote i _ _ => i
  | .header i _ _ => i
  | .numberedList i _ _ => i
  | .letteredList i _ _ => i
  | .unorderedList i _ _ => i
  | .other i _ => i

/-- `indent_level = token.get('indent', 0)`. -/
def Token.indentLevel (t : Token) : Nat := t.indentOpt.getD 0

/-- The token's `value` field (`[]` for the two kinds that carry none). -/
def Token.value : Token → List Char
  | .hrule _ => []
  | .paragraph _ v => v
  | .paragraphBreak _ => []
  | .codeBlock _ v => v
  | .table _ v => v
  | .blockQuote _ _ v => v
  | .header _ _ v => v
  | .numberedList _ _ v => v
  | .letteredList _ _ v => v
  | .unorderedList _ _ v => v
  | .other _ v => v

/-- `list_counters`: the per-call map from indent level to next expected
numbered-list ordinal. -/
def Counters : Type := Nat → Option Nat

/-- The empty counter map (`list_counters = {}`). -/
def Counters.empty : Counters := fun _ => none

/-- `list_counters.pop(i, None)`. -/
def Counters.pop (c : Counters) (i : Nat) : Counters :=
  fun k => if k = i then none else c k

/-- `list_counters[i] = v`. -/
def Counters.set (c : Counters) (i : Nat) (v : Nat) : Counters :=
  fun k => if k = i then some v else c k

/-- `list_counters.get(i, 1)`. -/
def Counters.getD1 (c : Counters) (i : Nat) : Nat := (c i).getD 1

/-- The counter bookkeeping at the top of the render loop: pop the entry at
this indent level for unordered/lettered lists, and likewise for every type
other than NUMBERED_LIST, PARAGRAPH and PARAGRAPH_BREAK. -/
def bookkeep (c : Counters) (t : Token) : Counters :=
  if t.type = TokenType.UNORDERED_LIST ∨ t.type = TokenType.LETTERED_LIST then
    c.pop t.indentLevel
  else if ¬ (t.type = TokenType.NUMBERED_LIST ∨ t.type = TokenType.PARAGRAPH ∨
      t.type = TokenType.PARAGRAPH_BREAK) then
    c.pop t.indentLevel
  else c

/-- The decimal digits of a number, as written by a Python f-string. -/
def natStr (n : Nat) : List Char := (Nat.repr n).toList

/-- The dispatch body of the render loop: the buffer entry appended for one
token, together with the counter map afterwards.  Each arm mirrors the
corresponding `elif` of `SlackRenderer.render`. -/
def formatToken (c : Counters) (t : Token) : List Char × Counters :=
  let ind := List.replicate t.indentLevel ' '
  match t with
  | .hrule _ => (['\n'], c)
  | .paragraph _ v => (ind ++ v, c)
  | .paragraphBreak _ => (['\n'], c)
  | .codeBlock _ v => (v, c)
  | .table _ v => (format_table v ++ ['\n'], c)
  | .blockQuote _ level v =>
    let qp := List.replicate level '>'
    match bulletMatch v with
    | some content => (qp ++ ' ' :: (bulletGlyph ++ ' ' :: content), c)
    | none => (qp ++ ' ' :: (ind ++ v), c)
  | .header _ raw v => (headerLine ind (raw.getD []) v, c)
  | .numberedList i number v =>
    let lvl := i.getD 0
    let current := c.getD1 lvl
    if number = 1 then (ind ++ ('1' :: '.' :: ' ' :: v), c.set lvl 2)
    else if number = current then
      (ind ++ (natStr number ++ '.' :: ' ' :: v), c.set lvl (number + 1))
    else (ind ++ (natStr number ++ '.' :: ' ' :: v), c.set lvl (number + 1))
  | .letteredList _ b v => (ind ++ (b ++ ' ' :: v), c)
  | .unorderedList _ b v => (ind ++ (b ++ ' ' :: v), c)
  | .other _ v => (ind ++ v, c)

/-- The render loop: bookkeeping, then formatting, threading the counter
map; returns the buffer `output` in order. -/
def renderEntriesFrom (c : Counters) : List Token → List (List Char)
  | [] => []
  | t :: ts =>
    let p := formatToken (bookkeep c t) t
    p.1 :: renderEntriesFrom p.2 ts

/-- `SlackRenderer.render`: the buffer joined with `'\n'.join(output)`. -/
def render (tokens : List Token) : List Char :=
  joinWith ['\n'] (renderEntriesFrom Counters.empty tokens)

/-- Modelled from the words of claim C3, for comparison with the code (the
code itself uses `stripPipes`): strip exactly one leading and exactly one
trailing pipe character, each only if present. -/
def specStripOnePipe (s : List Char) : List Char :=
  let s1 := if s.head? = some '|' then s.tail else s
  if s1.getLast? = some '|' then s1.dropLast else s1

/-- The cell rule of claim C3: one pipe stripped per side, then split and
trim. -/
def specRowCells (line : List Char) : List (List Char) :=
  (splitOnChar '|' (specStripOnePipe line)).map pyStrip

/-- The formatted table rows that `format_table` places between the two
fence lines (its non-degenerate branch). -/
def table_body (md : List Char) : List (List Char) :=
  (padded_rows (tableRows md) (max_cols (tableRows md))).map
    (formatted_row
      (col_widths (padded_rows (tableRows md) (max_cols (tableRows md)))
        (max_cols (tableRows md))))

/-- A text made of embedded asterisk-wrapped spans: each pair `(b, t)`
contributes the span `\*{k} b \*{k}` followed by the plain text `t`. -/
def spanText (k : Nat) : List (List Char × List Char) → List Char
  | [] => []
  | (b, t) :: rest => stars k ++ (b ++ (stars k ++ (t ++ spanText k rest)))

/-- The same sequence with every span replaced in place by its inner text
and all surrounding text kept. -/
def spanSub : List (List Char × List Char) → List Char
  | [] => []
  | (b, t) :: rest => b ++ (t ++ spanSub rest)

/-- Every span's inner text is non-empty, asterisk-free and newline-free,
and every flank text is asterisk-free. -/
def goodSpans (L : List (List Char × List Char)) : Prop :=
  ∀ p ∈ L, (p.1 ≠ [] ∧ ∀ x ∈ p.1, x ≠ '*' ∧ x ≠ '\n') ∧ ∀ x ∈ p.2, x ≠ '*'

/-- The flank between any two consecutive spans is non-empty (no two spans
are adjacent); the flank after the last span is unconstrained. -/
def midFlanksNonempty : List (List Char × List Char) → Prop
  | [] => True
  | [_] => True
  | p :: q :: rest => p.2 ≠ [] ∧ midFlanksNonempty (q :: rest)

theorem findClose_rest_length {k : Nat} :
    ∀ {l : List Char} {p : List Char × List Char},
      findClose k l = some p → p.2.length < l.length := by
  intro l
  induction l with
  | nil => intro p h; simp [findClose] at h
  | cons x xs ih =>
    intro p h
    simp only [findClose] at h
    split at h
    · exact absurd h (by simp)
    · split at h
      · cases h
        simp only [List.length_drop, List.length_cons]
        omega
      · cases hm : findClose k xs with
        | none => rw [hm] at h; exact absurd h (by simp)
        | some q =>
          rw [hm] at h
          cases h
          have := ih hm
          simp only [List.length_cons]
          omega

theorem matchStars_rest_length {k : Nat} {s : List Char}
    {p : List Char × List Char} (h : matchStars k s = some p) :
    p.2.length < s.length := by
  unfold matchStars at h
  split at h
  · have h1 := findClose_rest_length h
    have h2 : (s.drop k).length ≤ s.length := by
      simp only [List.length_drop]; omega
    omega
  · exact absurd h (by simp)


theorem subStarsAux_congr {k : Nat} :
    ∀ {fuel fuel' : Nat} {l : List Char}, l.length ≤ fuel → l.length ≤ fuel' →
      subStarsAux k fuel l = subStarsAux k fuel' l := by
  intro fuel
  induction fuel with
  | zero =>
    intro fuel' l h _
    have : l = [] := List.length_eq_zero.mp (Nat.le_zero.mp h)
    subst this
    cases fuel' <;> rfl
  | succ f ih =>
    intro fuel' l h h'
    cases l with
    | nil => cases fuel' <;> rfl
    | cons x xs =>
      cases fuel' with
      | zero => exact absurd h' (by simp)
      | succ f' =>
        simp only [subStarsAux]
        cases hm : matchStars k (x :: xs) with
        | some p =>
          have hlt := matchStars_rest_length hm
          simp only [List.length_cons] at h h' hlt
          dsimp only
          congr 1
          apply ih <;> omega
        | none =>
          simp only [List.length_cons] at h h'
          dsimp only
          congr 1
          apply ih <;> omega

theorem subStars_nil {k : Nat} : subStars k [] = [] := rfl

theorem subStars_cons_some {k : Nat} {x : Char} {xs : List Char}
    {p : List Char × List Char} (h : matchStars k (x :: xs) = some p) :
    subStars k (x :: xs) = p.1 ++ subStars k p.2 := by
  have hlt := matchStars_rest_length h
  simp only [List.length_cons] at hlt
  unfold subStars
  simp only [List.length_cons, subStarsAux, h]
  congr 1
  exact subStarsAux_congr (by omega) (le_refl _)

theorem subStars_cons_none {k : Nat} {x : Char} {xs : List Char}
    (h : matchStars k (x :: xs) = none) :
    subStars k (x :: xs) = x :: subStars k xs := by
  unfold subStars
  simp only [List.length_cons, subStarsAux, h]

theorem pyStrip_eq_nil {s : List Char} (h : s.all pyIsSpace) : pyStrip s = [] := by
  unfold pyStrip
  have h1 : s.dropWhile pyIsSpace = [] :=
    List.dropWhile_eq_nil_iff.mpr (by simpa [List.all_eq_true] using h)
  rw [h1]
  rfl

/-- C1: the code evaluated at the claim's example input.  A BLOCK_QUOTE
token with level 2 and value "- sub item" renders with the source file's
literal bullet text, the three characters U+00E2 U+20AC U+00A2 (the UTF-8
bytes of the bullet U+2022 re-decoded as cp1252), and therefore not with
the single bullet glyph U+2022 that the claim states. -/
theorem C1_code_eval :
    render [Token.blockQuote none 2 ("- sub item".toList)] =
      ('>' :: '>' :: ' ' :: (bulletGlyph ++ ' ' :: "sub item".toList)) ∧
    render [Token.blockQuote none 2 ("- sub item".toList)] ≠ (">> • sub item".toList) :=
  ⟨by decide, by decide⟩

/-- C4: the buffer entry of every HRULE or PARAGRAPH_BREAK token is exactly
the one-character string "\n", and render is the buffer joined with a
single newline separator and nothing more. -/
theorem C4_blank_line_entries :
    (∀ (c : Counters) (t : Token),
        t.type = TokenType.HRULE ∨ t.type = TokenType.PARAGRAPH_BREAK →
        (formatToken c t).1 = ['\n']) ∧
    (∀ ts : List Token,
        render ts = joinWith ['\n'] (renderEntriesFrom Counters.empty ts)) := by
  constructor
  · intro c t h
    cases t <;> first | rfl | simp [Token.type] at h
  · intro ts
    rfl

/-- C4 witness: the theorem applied to a concrete HRULE token. -/
theorem C4_blank_line_entries_witness :
    (formatToken Counters.empty (Token.hrule (some 1))).1 = ['\n'] :=
  C4_blank_line_entries.1 Counters.empty (Token.hrule (some 1)) (Or.inl rfl)

/-- C5: a NUMBERED_LIST token renders as its indent spaces, its own number,
". " and its value, whatever the prior counter state, and in every branch
the counter entry at the token's indent level becomes number + 1. -/
theorem C5_numbered_list (c : Counters) (i : Option Nat) (n : Nat) (v : List Char) :
    (formatToken c (Token.numberedList i n v)).1 =
      List.replicate (i.getD 0) ' ' ++ (natStr n ++ '.' :: ' ' :: v) ∧
    ∀ k : Nat, (formatToken c (Token.numberedList i n v)).2 k =
      if k = i.getD 0 then some (n + 1) else c k := by
  unfold formatToken
  dsimp only
  by_cases hn : n = 1
  · subst hn
    rw [if_pos rfl]
    exact ⟨rfl, fun k => rfl⟩
  · rw [if_neg hn]
    split_ifs <;> exact ⟨rfl, fun k => rfl⟩

/-- C6: before formatting, an UNORDERED_LIST or LETTERED_LIST token, and any
token whose type is none of NUMBERED_LIST, PARAGRAPH, PARAGRAPH_BREAK, has
the counter entry at its indent level removed; a PARAGRAPH or
PARAGRAPH_BREAK token leaves every counter entry unchanged through the
whole step. -/
theorem C6_counter_bookkeeping (c : Counters) (t : Token) :
    ((t.type = TokenType.UNORDERED_LIST ∨ t.type = TokenType.LETTERED_LIST ∨
        ¬ (t.type = TokenType.NUMBERED_LIST ∨ t.type = TokenType.PARAGRAPH ∨
           t.type = TokenType.PARAGRAPH_BREAK)) →
      ∀ k : Nat, bookkeep c t k = if k = t.indentLevel then none else c k) ∧
    ((t.type = TokenType.PARAGRAPH ∨ t.type = TokenType.PARAGRAPH_BREAK) →
      (∀ k : Nat, bookkeep c t k = c k) ∧
      (∀ k : Nat, (formatToken (bookkeep c t) t).2 k = c k)) := by
  constructor
  · intro h k
    cases t <;> first | rfl | simp [Token.type] at h
  · intro h
    cases t <;> first
      | exact ⟨fun k => rfl, fun k => rfl⟩
      | simp [Token.type] at h

/-- C6 witness: the theorem applied to a concrete HEADER token (an entry is
dropped) and to a concrete PARAGRAPH token (every entry survives). -/
theorem C6_counter_bookkeeping_witness :
    bookkeep (fun k => some (k + 5)) (Token.header (some 2) none []) 2 = none ∧
    bookkeep (fun k => some (k + 5)) (Token.paragraph (some 2) []) 2 = some 7 := by
  constructor
  · have h := (C6_counter_bookkeeping (fun k => some (k + 5))
      (Token.header (some 2) none [])).1 (Or.inr (Or.inr (by decide))) 2
    rw [h]
    rfl
  · have h := ((C6_counter_bookkeeping (fun k => some (k + 5))
      (Token.paragraph (some 2) [])).2 (Or.inl rfl)).1 2
    rw [h]

theorem renderEntriesFrom_paragraphs (c : Counters) (ts : List Token)
    (h : ∀ t ∈ ts, ∃ i v, t = Token.paragraph i v) :
    renderEntriesFrom c ts =
      ts.map fun t => List.replicate t.indentLevel ' ' ++ t.value := by
  induction ts generalizing c with
  | nil => rfl
  | cons t ts ih =>
    obtain ⟨i, v, rfl⟩ := h _ (List.mem_cons_self _ _)
    have htail : ∀ u ∈ ts, ∃ i v, u = Token.paragraph i v :=
      fun u hu => h u (List.mem_cons_of_mem _ hu)
    show (List.replicate ((Token.paragraph i v).indentLevel) ' ' ++ v) ::
        renderEntriesFrom c ts = _
    rw [ih c htail]
    rfl

/-- C7: on a token list consisting only of PARAGRAPH tokens, render returns
exactly the values, each prefixed by its indent spaces (indent defaulting
to 0 when absent), joined by single newlines. -/
theorem C7_paragraphs_only (ts : List Token)
    (h : ∀ t ∈ ts, ∃ i v, t = Token.paragraph i v) :
    render ts = joinWith ['\n']
      (ts.map fun t => List.replicate t.indentLevel ' ' ++ t.value) := by
  unfold render
  rw [renderEntriesFrom_paragraphs Counters.empty ts h]

/-- C7 witness: the theorem applied to a two-paragraph list, one with an
explicit indent and one with the field absent. -/
theorem C7_paragraphs_only_witness :
    render [Token.paragraph (some 2) ("ab".toList), Token.paragraph none ("c".toList)] =
      ("  ab".toList ++ '\n' :: "c".toList) := by
  have h := C7_paragraphs_only
    [Token.paragraph (some 2) ("ab".toList), Token.paragraph none ("c".toList)]
    (by
      intro t ht
      simp only [List.mem_cons, List.not_mem_nil, or_false] at ht
      rcases ht with rfl | rfl
      · exact ⟨_, _, rfl⟩
      · exact ⟨_, _, rfl⟩)
  rw [h]
  decide

/-- C9: a table markup all of whose characters are whitespace (so with no
non-blank line) formats to the fixed empty fenced block, an opening fence
line and a closing fence with nothing between. -/
theorem C9_empty_table (s : List Char) (h : s.all pyIsSpace) :
    format_table s = fence ++ '\n' :: fence := by
  have h0 : pyStrip s = [] := pyStrip_eq_nil h
  unfold format_table tableRows rows_raw tableLines
  rw [h0]
  rfl

/-- C9 witness: the theorem applied to a concrete whitespace-only markup. -/
theorem C9_empty_table_witness :
    format_table (" ".toList ++ '\n' :: '\t' :: " ".toList) = fence ++ '\n' :: fence :=
  C9_empty_table (" ".toList ++ '\n' :: '\t' :: " ".toList) (by decide)

theorem dropWhile_replicate_append (p : Char → Bool) (c : Char) (hp : p c = true) :
    ∀ (m : Nat) (l : List Char),
      List.dropWhile p (List.replicate m c ++ l) = List.dropWhile p l := by
  intro m
  induction m with
  | zero => intro l; rfl
  | succ m ih =>
    intro l
    rw [List.replicate_succ, List.cons_append, List.dropWhile_cons_of_pos hp]
    exact ih l

theorem stripPipes_cons_pipe (l : List Char) : stripPipes ('|' :: l) = stripPipes l := by
  unfold stripPipes
  rw [List.dropWhile_cons_of_pos (by decide)]

theorem stripPipes_append_pipe : ∀ l : List Char, stripPipes (l ++ ['|']) = stripPipes l := by
  intro l
  induction l with
  | nil => rfl
  | cons x l ih =>
    by_cases hx : x = '|'
    · subst hx
      rw [List.cons_append, stripPipes_cons_pipe, stripPipes_cons_pipe]
      exact ih
    · unfold stripPipes
      rw [List.cons_append,
        List.dropWhile_cons_of_neg (by simp [hx]),
        List.dropWhile_cons_of_neg (by simp [hx])]
      rw [List.reverse_cons, List.reverse_cons]
      rw [List.reverse_append, List.append_assoc]
      simp only [List.reverse_singleton, List.singleton_append]
      rw [List.dropWhile_cons_of_pos (by decide)]

theorem stripPipes_replicate_left :
    ∀ (m : Nat) (l : List Char), stripPipes (List.replicate m '|' ++ l) = stripPipes l := by
  intro m
  induction m with
  | zero => intro l; rfl
  | succ m ih =>
    intro l
    rw [List.replicate_succ, List.cons_append, stripPipes_cons_pipe]
    exact ih l

theorem stripPipes_replicate_right :
    ∀ (n : Nat) (l : List Char), stripPipes (l ++ List.replicate n '|') = stripPipes l := by
  intro n
  induction n with
  | zero => intro l; simp
  | succ n ih =>
    intro l
    rw [List.replicate_succ', ← List.append_assoc, stripPipes_append_pipe]
    exact ih l

/-- C3 counterexample: on the line "||a||" the code's cell rule produces the
single cell ["a"] (every leading and trailing pipe is stripped), while the
claim's strip-exactly-one-pipe rule would produce ["", "a", ""]. -/
theorem C3_counterexample :
    rowCells ("||a||".toList) = ["a".toList] ∧
    specRowCells ("||a||".toList) = [[], "a".toList, []] ∧
    rowCells ("||a||".toList) ≠ specRowCells ("||a||".toList) :=
  ⟨by decide, by decide, by decide⟩

/-- C3 amended: the formatter strips ALL leading and ALL trailing pipe
characters of a line (Python str.strip('|')) before splitting on interior
pipes and trimming the cells, so any number of extra pipes at either end of
a line never changes its cells. -/
theorem C3_amended (m n : Nat) (s : List Char) :
    rowCells (List.replicate m '|' ++ s ++ List.replicate n '|') = rowCells s := by
  unfold rowCells
  rw [List.append_assoc, stripPipes_replicate_left, stripPipes_replicate_right]

theorem le_foldr_max (l : List Nat) (x : Nat) (h : x ∈ l) : x ≤ l.foldr max 0 := by
  induction l with
  | nil => cases h
  | cons y t ih =>
    rcases List.mem_cons.mp h with rfl | h2
    · exact le_max_left _ _
    · exact le_trans (ih h2) (le_max_right _ _)

theorem enumFrom_map_ljust (ws : List Nat) :
    ∀ (row : List (List Char)) (j : Nat), j + row.length ≤ ws.length →
      ((List.enumFrom j row).map fun p => ljust p.2 (ws.getD p.1 0)) =
        List.zipWith (fun cell w => ljust cell w) row (ws.drop j) := by
  intro row
  induction row with
  | nil => intro j h; simp
  | cons cell rest ih =>
    intro j h
    simp only [List.length_cons] at h
    have hj : j < ws.length := by omega
    have hdrop : ws.drop j = ws.getD j 0 :: ws.drop (j + 1) := by
      rw [List.drop_eq_getElem_cons hj]
      congr 1
      rw [List.getD_eq_getElem?_getD, List.getElem?_eq_getElem hj]
      rfl
    rw [hdrop]
    simp only [List.enumFrom, List.map_cons, List.zipWith_cons_cons]
    rw [ih (j + 1) (by omega)]

theorem formatted_row_eq_zipWith (ws : List Nat) (row : List (List Char))
    (h : row.length = ws.length) :
    formatted_row ws row =
      joinWith sepCells (List.zipWith (fun cell w => ljust cell w) row ws) := by
  unfold formatted_row
  refine congrArg (joinWith sepCells) ?_
  have h0 := enumFrom_map_ljust ws row 0 (by omega)
  simpa [List.enum] using h0

theorem padded_rows_length (rows : List (List (List Char))) :
    ∀ row ∈ padded_rows rows (max_cols rows), row.length = max_cols rows := by
  intro row hrow
  unfold padded_rows at hrow
  obtain ⟨r, hr, rfl⟩ := List.mem_map.mp hrow
  have hle : r.length ≤ max_cols rows :=
    le_foldr_max _ _ (List.mem_map_of_mem List.length hr)
  simp only [List.length_append, List.length_replicate]
  omega

/-- C8: the table formatter pads every row to the maximal column count,
renders a row by left-justifying each cell to its column's width and
joining with " | " (the enumerate/index form of the source equals the
pairwise form), and on the markup "a|bb\nccc|d" it computes column widths
[3, 2] and the body lines "a   | bb" and "ccc | d " inside the fences. -/
theorem C8_table_padding_alignment :
    (∀ (ws : List Nat) (row : List (List Char)), row.length = ws.length →
        formatted_row ws row =
          joinWith sepCells (List.zipWith (fun cell w => ljust cell w) row ws)) ∧
    (∀ (rows : List (List (List Char))) (row : List (List Char)),
        row ∈ padded_rows rows (max_cols rows) → row.length = max_cols rows) ∧
    col_widths
        (padded_rows (tableRows ("a|bb".toList ++ '\n' :: "ccc|d".toList))
          (max_cols (tableRows ("a|bb".toList ++ '\n' :: "ccc|d".toList))))
        (max_cols (tableRows ("a|bb".toList ++ '\n' :: "ccc|d".toList))) = [3, 2] ∧
    format_table ("a|bb".toList ++ '\n' :: "ccc|d".toList) =
      fence ++ '\n' :: ("a   | bb".toList ++ '\n' :: "ccc | d ".toList ++ '\n' :: fence) :=
  ⟨formatted_row_eq_zipWith, padded_rows_length, by decide, by decide⟩

/-- C8 witness: the row-rendering part applied to the concrete widths and
first example row. -/
theorem C8_table_padding_alignment_witness :
    formatted_row [3, 2] ["a".toList, "bb".toList] =
      joinWith sepCells
        (List.zipWith (fun cell w => ljust cell w) ["a".toList, "bb".toList] [3, 2]) :=
  C8_table_padding_alignment.1 [3, 2] ["a".toList, "bb".toList] (by decide)

theorem joinWith_length (sep : List Char) :
    ∀ l : List (List Char), (joinWith sep l).length =
      (l.map List.length).sum + sep.length * (l.length - 1) := by
  intro l
  induction l with
  | nil => simp [joinWith]
  | cons x t ih =>
    cases t with
    | nil => simp [joinWith]
    | cons y t2 =>
      show (x ++ sep ++ joinWith sep (y :: t2)).length = _
      rw [List.length_append, List.length_append, ih]
      simp only [List.map_cons, List.sum_cons, List.length_cons,
        Nat.add_sub_cancel, Nat.succ_sub_one, Nat.mul_succ]
      omega

theorem col_widths_length (padded : List (List (List Char))) (mc : Nat) :
    (col_widths padded mc).length = mc := by
  simp [col_widths]

theorem col_widths_getD (padded : List (List (List Char))) (mc i : Nat)
    (hi : i < mc) :
    (col_widths padded mc).getD i 0 =
      ((padded.map fun row => (row.getD i []).length).foldr max 0) := by
  unfold col_widths
  rw [List.getD_eq_getElem?_getD, List.getElem?_map, List.getElem?_range hi]
  rfl

theorem zipWith_ljust_map_length :
    ∀ (row : List (List Char)) (ws : List Nat), row.length = ws.length →
      (∀ i, i < row.length → (row.getD i []).length ≤ ws.getD i 0) →
      (List.zipWith (fun cell w => ljust cell w) row ws).map List.length = ws := by
  intro row
  induction row with
  | nil =>
    intro ws h _
    cases ws with
    | nil => rfl
    | cons w ws2 => simp at h
  | cons cell rest ih =>
    intro ws h hle
    cases ws with
    | nil => simp at h
    | cons w ws2 =>
      simp only [List.zipWith_cons_cons, List.map_cons]
      have h0 := hle 0 (by simp)
      simp only [List.getD_cons_zero] at h0
      have hcell : (ljust cell w).length = w := by
        unfold ljust
        rw [List.length_append, List.length_replicate]
        omega
      rw [hcell, ih ws2 (by simpa using h)
        (fun i hi => by simpa using hle (i + 1) (by simpa using hi))]

theorem mem_of_mem_dropWhile (p : Char → Bool) :
    ∀ (l : List Char) (c : Char), c ∈ l.dropWhile p → c ∈ l := by
  intro l
  induction l with
  | nil => intro c h; exact h
  | cons x xs ih =>
    intro c h
    by_cases hx : p x
    · rw [List.dropWhile_cons_of_pos hx] at h
      exact List.mem_cons_of_mem _ (ih c h)
    · rw [List.dropWhile_cons_of_neg (by simpa using hx)] at h
      exact h

theorem mem_of_mem_pyStrip (s : List Char) (c : Char) (h : c ∈ pyStrip s) : c ∈ s := by
  unfold pyStrip at h
  rw [List.mem_reverse] at h
  have h2 := mem_of_mem_dropWhile pyIsSpace _ c h
  rw [List.mem_reverse] at h2
  exact mem_of_mem_dropWhile pyIsSpace _ c h2

theorem mem_of_mem_stripPipes (s : List Char) (c : Char) (h : c ∈ stripPipes s) : c ∈ s := by
  unfold stripPipes at h
  rw [List.mem_reverse] at h
  have h2 := mem_of_mem_dropWhile _ _ c h
  rw [List.mem_reverse] at h2
  exact mem_of_mem_dropWhile _ _ c h2

theorem mem_splitOnChar_no_sep (sep : Char) :
    ∀ (s piece : List Char), piece ∈ splitOnChar sep s → sep ∉ piece := by
  intro s
  induction s with
  | nil =>
    intro piece h
    simp only [splitOnChar, List.mem_singleton] at h
    subst h
    simp
  | cons x xs ih =>
    intro piece h
    by_cases hx : x = sep
    · rw [show splitOnChar sep (x :: xs) = [] :: splitOnChar sep xs by
        simp [splitOnChar, hx]] at h
      rcases List.mem_cons.mp h with rfl | h2
      · simp
      · exact ih piece h2
    · rw [show splitOnChar sep (x :: xs) =
          (match splitOnChar sep xs with
            | [] => [[x]]
            | h :: t => (x :: h) :: t) by simp [splitOnChar, hx]] at h
      cases hsp : splitOnChar sep xs with
      | nil =>
        rw [hsp] at h
        simp only [List.mem_singleton] at h
        subst h
        simp only [List.mem_singleton]
        exact fun he => hx he.symm
      | cons hd tl =>
        rw [hsp] at h
        rcases List.mem_cons.mp h with rfl | h2
        · intro hmem
          rcases List.mem_cons.mp hmem with he | h3
          · exact hx he.symm
          · exact ih hd (by rw [hsp]; exact List.mem_cons_self _ _) h3
        · exact ih piece (by rw [hsp]; exact List.mem_cons_of_mem _ h2)

theorem mem_splitOnChar_subset (sep : Char) :
    ∀ (s piece : List Char), piece ∈ splitOnChar sep s → ∀ c ∈ piece, c ∈ s := by
  intro s
  induction s with
  | nil =>
    intro piece h
    simp only [splitOnChar, List.mem_singleton] at h
    subst h
    intro c hc
    cases hc
  | cons x xs ih =>
    intro piece h
    by_cases hx : x = sep
    · rw [show splitOnChar sep (x :: xs) = [] :: splitOnChar sep xs by
        simp [splitOnChar, hx]] at h
      rcases List.mem_cons.mp h with rfl | h2
      · intro c hc; cases hc
      · intro c hc
        exact List.mem_cons_of_mem _ (ih piece h2 c hc)
    · rw [show splitOnChar sep (x :: xs) =
          (match splitOnChar sep xs with
            | [] => [[x]]
            | h :: t => (x :: h) :: t) by simp [splitOnChar, hx]] at h
      cases hsp : splitOnChar sep xs with
      | nil =>
        rw [hsp] at h
        simp only [List.mem_singleton] at h
        subst h
        intro c hc
        simp only [List.mem_singleton] at hc
        subst hc
        exact List.mem_cons_self _ _
      | cons hd tl =>
        rw [hsp] at h
        rcases List.mem_cons.mp h with rfl | h2
        · intro c hc
          rcases List.mem_cons.mp hc with rfl | h3
          · exact List.mem_cons_self _ _
          · exact List.mem_cons_of_mem _
              (ih hd (by rw [hsp]; exact List.mem_cons_self _ _) c h3)
        · intro c hc
          exact List.mem_cons_of_mem _
            (ih piece (by rw [hsp]; exact List.mem_cons_of_mem _ h2) c hc)

theorem tableRows_no_newline (md : List Char) :
    ∀ row ∈ tableRows md, ∀ cell ∈ row, '\n' ∉ cell := by
  intro row hrow cell hcell
  unfold tableRows rows_raw at hrow
  obtain ⟨r, hr, rfl⟩ := List.mem_map.mp hrow
  obtain ⟨line, hline, rfl⟩ := List.mem_map.mp hr
  have hline2 : line ∈ splitOnChar '\n' (pyStrip md) := by
    unfold tableLines at hline
    exact List.mem_of_mem_filter hline
  have hnl : '\n' ∉ line := mem_splitOnChar_no_sep '\n' _ line hline2
  obtain ⟨rawcell, hrc, rfl⟩ := List.mem_map.mp hcell
  intro hmem
  have h1 : '\n' ∈ rawcell := mem_of_mem_pyStrip rawcell '\n' hmem
  have h2 : '\n' ∈ stripPipes line := mem_splitOnChar_subset '|' _ rawcell hrc '\n' h1
  exact hnl (mem_of_mem_stripPipes line '\n' h2)

theorem mem_joinWith (sep : List Char) :
    ∀ (l : List (List Char)) (c : Char),
      c ∈ joinWith sep l → c ∈ sep ∨ ∃ x ∈ l, c ∈ x := by
  intro l
  induction l with
  | nil => intro c h; cases h
  | cons x t ih =>
    intro c h
    cases t with
    | nil => exact Or.inr ⟨x, List.mem_cons_self _ _, h⟩
    | cons y t2 =>
      show c ∈ sep ∨ _
      rw [show joinWith sep (x :: y :: t2) = x ++ sep ++ joinWith sep (y :: t2) from rfl] at h
      rcases List.mem_append.mp h with h1 | h2
      · rcases List.mem_append.mp h1 with ha | hb
        · exact Or.inr ⟨x, List.mem_cons_self _ _, ha⟩
        · exact Or.inl hb
      · rcases ih c h2 with hs | ⟨z, hz, hc⟩
        · exact Or.inl hs
        · exact Or.inr ⟨z, List.mem_cons_of_mem _ hz, hc⟩

theorem mem_zipWith_ljust :
    ∀ (row : List (List Char)) (ws : List Nat) (x : List Char),
      x ∈ List.zipWith (fun cell w => ljust cell w) row ws →
      ∃ cell ∈ row, ∃ w : Nat, x = ljust cell w := by
  intro row
  induction row with
  | nil => intro ws x h; simp at h
  | cons cell rest ih =>
    intro ws x h
    cases ws with
    | nil => simp at h
    | cons w ws2 =>
      rcases List.mem_cons.mp h with rfl | h2
      · exact ⟨cell, List.mem_cons_self _ _, w, rfl⟩
      · obtain ⟨c2, hc2, w2, rfl⟩ := ih ws2 x h2
        exact ⟨c2, List.mem_cons_of_mem _ hc2, w2, rfl⟩

/-- C10: in the non-degenerate case the table output is the opening fence
line, the formatted body rows joined by newlines, and the closing fence
line; each body row contains no newline (so the body rows are exactly the
output lines strictly between the fences), and each has length equal to
the sum of the column widths plus 3 times (max_cols - 1). -/
theorem C10_table_body_lines (md : List Char) (h : tableRows md ≠ []) :
    format_table md =
      fence ++ '\n' :: (joinWith ['\n'] (table_body md) ++ '\n' :: fence) ∧
    ∀ line ∈ table_body md, '\n' ∉ line ∧
      line.length =
        (col_widths (padded_rows (tableRows md) (max_cols (tableRows md)))
            (max_cols (tableRows md))).sum +
          3 * (max_cols (tableRows md) - 1) := by
  constructor
  · simp only [format_table, table_body]
    rw [if_neg h]
  · intro line hline
    obtain ⟨prow, hprow, rfl⟩ := List.mem_map.mp hline
    have hplen : prow.length = max_cols (tableRows md) :=
      padded_rows_length (tableRows md) prow hprow
    have hwlen : (col_widths (padded_rows (tableRows md) (max_cols (tableRows md)))
        (max_cols (tableRows md))).length = max_cols (tableRows md) :=
      col_widths_length _ _
    have hlen : prow.length =
        (col_widths (padded_rows (tableRows md) (max_cols (tableRows md)))
          (max_cols (tableRows md))).length := by omega
    have hcellrow : ∀ cell ∈ prow, '\n' ∉ cell := by
      unfold padded_rows at hprow
      obtain ⟨row0, hrow0, rfl⟩ := List.mem_map.mp hprow
      intro cell hcell
      rcases List.mem_append.mp hcell with hc | hc
      · exact tableRows_no_newline md row0 hrow0 cell hc
      · have := List.eq_of_mem_replicate hc
        subst this
        simp
    have hle : ∀ i, i < prow.length →
        (prow.getD i []).length ≤
          (col_widths (padded_rows (tableRows md) (max_cols (tableRows md)))
            (max_cols (tableRows md))).getD i 0 := by
      intro i hi
      rw [col_widths_getD _ _ i (by omega)]
      exact le_foldr_max _ _
        (List.mem_map_of_mem (fun row => (row.getD i []).length) hprow)
    constructor
    · rw [formatted_row_eq_zipWith _ prow hlen]
      intro hmem
      rcases mem_joinWith sepCells _ '\n' hmem with hs | ⟨x, hx, hc⟩
      · simp [sepCells] at hs
      · obtain ⟨cell, hcell, w, rfl⟩ := mem_zipWith_ljust prow _ x hx
        unfold ljust at hc
        rcases List.mem_append.mp hc with h1 | h1
        · exact hcellrow cell hcell h1
        · have := List.eq_of_mem_replicate h1
          simp at this
    · rw [formatted_row_eq_zipWith _ prow hlen, joinWith_length]
      rw [zipWith_ljust_map_length prow _ hlen hle]
      rw [List.length_zipWith]
      simp only [sepCells, List.length_cons, List.length_nil]
      omega

/-- C10 witness: the theorem applied to the ragged markup "x|y\nz"; its
first body line "x | y" is newline-free and has the claimed length. -/
theorem C10_table_body_lines_witness :
    '\n' ∉ ("x | y".toList) ∧
    ("x | y".toList).length =
      (col_widths
          (padded_rows (tableRows ("x|y".toList ++ '\n' :: "z".toList))
            (max_cols (tableRows ("x|y".toList ++ '\n' :: "z".toList))))
          (max_cols (tableRows ("x|y".toList ++ '\n' :: "z".toList)))).sum +
        3 * (max_cols (tableRows ("x|y".toList ++ '\n' :: "z".toList)) - 1) :=
  (C10_table_body_lines ("x|y".toList ++ '\n' :: "z".toList) (by decide)).2
    ("x | y".toList) (by decide)

theorem stars_length (k : Nat) : (stars k).length = k := by simp [stars]

theorem take_stars_append (k : Nat) (r : List Char) :
    (stars k ++ r).take k = stars k := by
  rw [List.take_append_eq_append_take]
  simp [stars]

theorem drop_stars_append (k : Nat) (r : List Char) :
    (stars k ++ r).drop k = r := by
  rw [List.drop_append_eq_append_drop]
  simp [stars]

theorem matchStars_cons_ne {k : Nat} {x : Char} {l : List Char}
    (hk : 1 ≤ k) (hx : x ≠ '*') : matchStars k (x :: l) = none := by
  unfold matchStars
  split
  · rename_i hcond
    exfalso
    cases k with
    | zero => omega
    | succ k2 =>
      rw [List.take_succ_cons] at hcond
      unfold stars at hcond
      rw [List.replicate_succ] at hcond
      injection hcond with hh _
      exact hx hh
  · rfl

theorem fullmatchStars_cons_ne {k : Nat} {x : Char} {l : List Char}
    (hk : 1 ≤ k) (hx : x ≠ '*') : fullmatchStars k (x :: l) = none := by
  unfold fullmatchStars
  dsimp only
  split
  · rename_i hcond
    exfalso
    obtain ⟨h1, h2, h3, h4⟩ := hcond
    cases k with
    | zero => omega
    | succ k2 =>
      rw [List.take_succ_cons] at h2
      unfold stars at h2
      rw [List.replicate_succ] at h2
      injection h2 with hh _
      exact hx hh
  · rfl

theorem matchStars3_second (a : Char) {y : Char} {l : List Char} (hy : y ≠ '*') :
    matchStars 3 (a :: y :: l) = none := by
  unfold matchStars
  split
  · rename_i hcond
    exfalso
    rw [List.take_succ_cons, List.take_succ_cons,
      show stars 3 = '*' :: '*' :: '*' :: [] from rfl] at hcond
    injection hcond with h1 h2
    injection h2 with h3 _
    exact hy h3
  · rfl

theorem matchStars3_third (a b : Char) {y : Char} {l : List Char} (hy : y ≠ '*') :
    matchStars 3 (a :: b :: y :: l) = none := by
  unfold matchStars
  split
  · rename_i hcond
    exfalso
    rw [List.take_succ_cons, List.take_succ_cons, List.take_succ_cons,
      show stars 3 = '*' :: '*' :: '*' :: [] from rfl] at hcond
    injection hcond with h1 h2
    injection h2 with h3 h4
    injection h4 with h5 _
    exact hy h5
  · rfl

theorem searchStars_append_left {k : Nat} (hk : 1 ≤ k) :
    ∀ {a : List Char} (r : List Char), (∀ x ∈ a, x ≠ '*') →
      searchStars k (a ++ r) = searchStars k r := by
  intro a
  induction a with
  | nil => intro r _; rfl
  | cons x a2 ih =>
    intro r ha
    have hx : x ≠ '*' := ha x (List.mem_cons_self _ _)
    show ((matchStars k (x :: (a2 ++ r))).isSome || searchStars k (a2 ++ r)) = _
    rw [matchStars_cons_ne hk hx,
      ih r (fun y hy => ha y (List.mem_cons_of_mem _ hy))]
    rfl

theorem searchStars_nonstar {k : Nat} (hk : 1 ≤ k) {c : List Char}
    (hc : ∀ x ∈ c, x ≠ '*') : searchStars k c = false := by
  have h := searchStars_append_left hk ([] : List Char) hc
  rw [List.append_nil] at h
  exact h

theorem subStars_append_left {k : Nat} (hk : 1 ≤ k) :
    ∀ {a : List Char} (r : List Char), (∀ x ∈ a, x ≠ '*') →
      subStars k (a ++ r) = a ++ subStars k r := by
  intro a
  induction a with
  | nil => intro r _; rfl
  | cons x a2 ih =>
    intro r ha
    have hx : x ≠ '*' := ha x (List.mem_cons_self _ _)
    rw [List.cons_append, subStars_cons_none (matchStars_cons_ne hk hx),
      ih r (fun y hy => ha y (List.mem_cons_of_mem _ hy))]
    rfl

theorem subStars_nonstar {k : Nat} (hk : 1 ≤ k) {c : List Char}
    (hc : ∀ x ∈ c, x ≠ '*') : subStars k c = c := by
  have h := subStars_append_left hk ([] : List Char) hc
  rw [List.append_nil] at h
  rw [h, subStars_nil, List.append_nil]

theorem findClose_ok {k : Nat} (hk : 1 ≤ k) :
    ∀ {b : List Char} (c : List Char), b ≠ [] →
      (∀ x ∈ b, x ≠ '*' ∧ x ≠ '\n') →
      findClose k (b ++ (stars k ++ c)) = some (b, c) := by
  intro b
  induction b with
  | nil => intro c hb _; exact absurd rfl hb
  | cons x b2 ih =>
    intro c _ hb
    have hx := hb x (List.mem_cons_self _ _)
    cases b2 with
    | nil =>
      show findClose k (x :: (stars k ++ c)) = some ([x], c)
      unfold findClose
      rw [if_neg hx.2, take_stars_append, if_pos rfl, drop_stars_append]
    | cons y b3 =>
      have hy := hb y (List.mem_cons_of_mem _ (List.mem_cons_self _ _))
      show findClose k (x :: ((y :: b3) ++ (stars k ++ c))) = some (x :: y :: b3, c)
      unfold findClose
      rw [if_neg hx.2]
      rw [if_neg]
      · rw [ih c (by simp) (fun z hz => hb z (List.mem_cons_of_mem _ hz))]
      · intro hEq
        cases k with
        | zero => omega
        | succ k2 =>
          rw [List.cons_append, List.take_succ_cons] at hEq
          unfold stars at hEq
          rw [List.replicate_succ] at hEq
          injection hEq with hh _
          exact hy.1 hh

theorem matchStars_open {k : Nat} (hk : 1 ≤ k) {b : List Char} (c : List Char)
    (hb0 : b ≠ []) (hb : ∀ x ∈ b, x ≠ '*' ∧ x ≠ '\n') :
    matchStars k (stars k ++ (b ++ (stars k ++ c))) = some (b, c) := by
  unfold matchStars
  rw [take_stars_append, if_pos rfl, drop_stars_append]
  exact findClose_ok hk c hb0 hb

theorem matchStars2_second (a : Char) {y : Char} {l : List Char} (hy : y ≠ '*') :
    matchStars 2 (a :: y :: l) = none := by
  unfold matchStars
  split
  · rename_i hcond
    exfalso
    rw [List.take_succ_cons, List.take_succ_cons,
      show stars 2 = '*' :: '*' :: [] from rfl] at hcond
    injection hcond with h1 h2
    injection h2 with h3 _
    exact hy h3
  · rfl

theorem subStars_spans {k : Nat} (hk : 1 ≤ k) :
    ∀ (L : List (List Char × List Char)) (t0 : List Char),
      (∀ x ∈ t0, x ≠ '*') → goodSpans L →
      subStars k (t0 ++ spanText k L) = t0 ++ spanSub L := by
  intro L
  induction L with
  | nil =>
    intro t0 ht0 _
    rw [show spanText k ([] : List (List Char × List Char)) = [] from rfl,
      List.append_nil, subStars_nonstar hk ht0,
      show spanSub ([] : List (List Char × List Char)) = [] from rfl,
      List.append_nil]
  | cons p rest ih =>
    obtain ⟨b, t⟩ := p
    intro t0 ht0 hgood
    have hbt := hgood (b, t) (List.mem_cons_self _ _)
    have hrest : goodSpans rest := fun q hq => hgood q (List.mem_cons_of_mem _ hq)
    rw [subStars_append_left hk _ ht0]
    congr 1
    obtain ⟨k2, rfl⟩ : ∃ k2, k = k2 + 1 := ⟨k - 1, by omega⟩
    have hms : matchStars (k2 + 1)
        ('*' :: (stars k2 ++ (b ++ (stars (k2 + 1) ++ (t ++ spanText (k2 + 1) rest))))) =
        some (b, t ++ spanText (k2 + 1) rest) :=
      matchStars_open (by omega) _ hbt.1.1 hbt.1.2
    rw [show spanText (k2 + 1) ((b, t) :: rest) =
        '*' :: (stars k2 ++ (b ++ (stars (k2 + 1) ++ (t ++ spanText (k2 + 1) rest)))) from rfl]
    rw [subStars_cons_some hms]
    rw [show spanSub ((b, t) :: rest) = b ++ (t ++ spanSub rest) from rfl]
    congr 1
    exact ih t hbt.2 hrest

theorem searchStars_spans {k : Nat} (hk : 1 ≤ k) (t0 : List Char)
    (ht0 : ∀ x ∈ t0, x ≠ '*') (b t : List Char)
    (rest : List (List Char × List Char)) (hb0 : b ≠ [])
    (hb : ∀ x ∈ b, x ≠ '*' ∧ x ≠ '\n') :
    searchStars k (t0 ++ spanText k ((b, t) :: rest)) = true := by
  rw [searchStars_append_left hk _ ht0]
  obtain ⟨k2, rfl⟩ : ∃ k2, k = k2 + 1 := ⟨k - 1, by omega⟩
  have hms : matchStars (k2 + 1)
      ('*' :: (stars k2 ++ (b ++ (stars (k2 + 1) ++ (t ++ spanText (k2 + 1) rest))))) =
      some (b, t ++ spanText (k2 + 1) rest) :=
    matchStars_open (by omega) _ hb0 hb
  show ((matchStars (k2 + 1)
      ('*' :: (stars k2 ++ (b ++ (stars (k2 + 1) ++ (t ++ spanText (k2 + 1) rest)))))).isSome ||
    searchStars (k2 + 1)
      (stars k2 ++ (b ++ (stars (k2 + 1) ++ (t ++ spanText (k2 + 1) rest))))) = true
  rw [hms]
  rfl

theorem searchStars3_false_spans2 :
    ∀ (L : List (List Char × List Char)) (t0 : List Char),
      (∀ x ∈ t0, x ≠ '*') → goodSpans L → midFlanksNonempty L →
      searchStars 3 (t0 ++ spanText 2 L) = false := by
  intro L
  induction L with
  | nil =>
    intro t0 ht0 _ _
    rw [show spanText 2 ([] : List (List Char × List Char)) = [] from rfl,
      List.append_nil]
    exact searchStars_nonstar (by decide) ht0
  | cons p rest ih =>
    obtain ⟨b, t⟩ := p
    intro t0 ht0 hgood hmid
    have hbt := hgood (b, t) (List.mem_cons_self _ _)
    have hrest : goodSpans rest := fun q hq => hgood q (List.mem_cons_of_mem _ hq)
    have ht : ∀ x ∈ t, x ≠ '*' := hbt.2
    rw [searchStars_append_left (by decide) _ ht0]
    obtain ⟨b0, b2, rfl⟩ := List.exists_cons_of_ne_nil hbt.1.1
    have hbb0 : b0 ≠ '*' := (hbt.1.2 b0 (List.mem_cons_self _ _)).1
    show ((matchStars 3
        ('*' :: '*' :: b0 :: (b2 ++ ('*' :: '*' :: (t ++ spanText 2 rest))))).isSome ||
      ((matchStars 3
        ('*' :: b0 :: (b2 ++ ('*' :: '*' :: (t ++ spanText 2 rest))))).isSome ||
        searchStars 3 (b0 :: (b2 ++ ('*' :: '*' :: (t ++ spanText 2 rest)))))) = false
    rw [matchStars3_third '*' '*' hbb0, matchStars3_second '*' hbb0]
    simp only [Option.isSome_none, Bool.false_or]
    rw [show (b0 :: (b2 ++ ('*' :: '*' :: (t ++ spanText 2 rest)))) =
        ((b0 :: b2) ++ ('*' :: '*' :: (t ++ spanText 2 rest))) from rfl]
    rw [searchStars_append_left (by decide) _ (fun x hx => (hbt.1.2 x hx).1)]
    cases rest with
    | nil =>
      cases t with
      | nil => decide
      | cons c0 c2 =>
        have hc0 : c0 ≠ '*' := ht c0 (List.mem_cons_self _ _)
        show ((matchStars 3 ('*' :: '*' :: c0 :: (c2 ++ spanText 2 []))).isSome ||
          ((matchStars 3 ('*' :: c0 :: (c2 ++ spanText 2 []))).isSome ||
            searchStars 3 (c0 :: (c2 ++ spanText 2 [])))) = false
        rw [matchStars3_third '*' '*' hc0, matchStars3_second '*' hc0]
        simp only [Option.isSome_none, Bool.false_or]
        rw [show (c0 :: (c2 ++ spanText 2 ([] : List (List Char × List Char)))) =
            ((c0 :: c2) ++ spanText 2 ([] : List (List Char × List Char))) from rfl]
        rw [show spanText 2 ([] : List (List Char × List Char)) = [] from rfl,
          List.append_nil]
        exact searchStars_nonstar (by decide) ht
    | cons q rest2 =>
      have htne : t ≠ [] := hmid.1
      obtain ⟨c0, c2, rfl⟩ := List.exists_cons_of_ne_nil htne
      have hc0 : c0 ≠ '*' := ht c0 (List.mem_cons_self _ _)
      show ((matchStars 3 ('*' :: '*' :: c0 :: (c2 ++ spanText 2 (q :: rest2)))).isSome ||
        ((matchStars 3 ('*' :: c0 :: (c2 ++ spanText 2 (q :: rest2)))).isSome ||
          searchStars 3 (c0 :: (c2 ++ spanText 2 (q :: rest2))))) = false
      rw [matchStars3_third '*' '*' hc0, matchStars3_second '*' hc0]
      simp only [Option.isSome_none, Bool.false_or]
      rw [show (c0 :: (c2 ++ spanText 2 (q :: rest2))) =
          ((c0 :: c2) ++ spanText 2 (q :: rest2)) from rfl]
      exact ih (c0 :: c2) ht hrest hmid.2

theorem searchStars3_false_spans1 :
    ∀ (L : List (List Char × List Char)) (t0 : List Char),
      (∀ x ∈ t0, x ≠ '*') → goodSpans L → midFlanksNonempty L →
      searchStars 3 (t0 ++ spanText 1 L) = false := by
  intro L
  induction L with
  | nil =>
    intro t0 ht0 _ _
    rw [show spanText 1 ([] : List (List Char × List Char)) = [] from rfl,
      List.append_nil]
    exact searchStars_nonstar (by decide) ht0
  | cons p rest ih =>
    obtain ⟨b, t⟩ := p
    intro t0 ht0 hgood hmid
    have hbt := hgood (b, t) (List.mem_cons_self _ _)
    have hrest : goodSpans rest := fun q hq => hgood q (List.mem_cons_of_mem _ hq)
    have ht : ∀ x ∈ t, x ≠ '*' := hbt.2
    rw [searchStars_append_left (by decide) _ ht0]
    obtain ⟨b0, b2, rfl⟩ := List.exists_cons_of_ne_nil hbt.1.1
    have hbb0 : b0 ≠ '*' := (hbt.1.2 b0 (List.mem_cons_self _ _)).1
    show ((matchStars 3 ('*' :: b0 :: (b2 ++ ('*' :: (t ++ spanText 1 rest))))).isSome ||
      searchStars 3 (b0 :: (b2 ++ ('*' :: (t ++ spanText 1 rest))))) = false
    rw [matchStars3_second '*' hbb0]
    simp only [Option.isSome_none, Bool.false_or]
    rw [show (b0 :: (b2 ++ ('*' :: (t ++ spanText 1 rest)))) =
        ((b0 :: b2) ++ ('*' :: (t ++ spanText 1 rest))) from rfl]
    rw [searchStars_append_left (by decide) _ (fun x hx => (hbt.1.2 x hx).1)]
    cases rest with
    | nil =>
      cases t with
      | nil => decide
      | cons c0 c2 =>
        have hc0 : c0 ≠ '*' := ht c0 (List.mem_cons_self _ _)
        show ((matchStars 3 ('*' :: c0 :: (c2 ++ spanText 1 []))).isSome ||
          searchStars 3 (c0 :: (c2 ++ spanText 1 []))) = false
        rw [matchStars3_second '*' hc0]
        simp only [Option.isSome_none, Bool.false_or]
        rw [show (c0 :: (c2 ++ spanText 1 ([] : List (List Char × List Char)))) =
            ((c0 :: c2) ++ spanText 1 ([] : List (List Char × List Char))) from rfl]
        rw [show spanText 1 ([] : List (List Char × List Char)) = [] from rfl,
          List.append_nil]
        exact searchStars_nonstar (by decide) ht
    | cons q rest2 =>
      have htne : t ≠ [] := hmid.1
      obtain ⟨c0, c2, rfl⟩ := List.exists_cons_of_ne_nil htne
      have hc0 : c0 ≠ '*' := ht c0 (List.mem_cons_self _ _)
      show ((matchStars 3 ('*' :: c0 :: (c2 ++ spanText 1 (q :: rest2)))).isSome ||
        searchStars 3 (c0 :: (c2 ++ spanText 1 (q :: rest2)))) = false
      rw [matchStars3_second '*' hc0]
      simp only [Option.isSome_none, Bool.false_or]
      rw [show (c0 :: (c2 ++ spanText 1 (q :: rest2))) =
          ((c0 :: c2) ++ spanText 1 (q :: rest2)) from rfl]
      exact ih (c0 :: c2) ht hrest hmid.2

theorem searchStars2_false_spans1 :
    ∀ (L : List (List Char × List Char)) (t0 : List Char),
      (∀ x ∈ t0, x ≠ '*') → goodSpans L → midFlanksNonempty L →
      searchStars 2 (t0 ++ spanText 1 L) = false := by
  intro L
  induction L with
  | nil =>
    intro t0 ht0 _ _
    rw [show spanText 1 ([] : List (List Char × List Char)) = [] from rfl,
      List.append_nil]
    exact searchStars_nonstar (by decide) ht0
  | cons p rest ih =>
    obtain ⟨b, t⟩ := p
    intro t0 ht0 hgood hmid
    have hbt := hgood (b, t) (List.mem_cons_self _ _)
    have hrest : goodSpans rest := fun q hq => hgood q (List.mem_cons_of_mem _ hq)
    have ht : ∀ x ∈ t, x ≠ '*' := hbt.2
    rw [searchStars_append_left (by decide) _ ht0]
    obtain ⟨b0, b2, rfl⟩ := List.exists_cons_of_ne_nil hbt.1.1
    have hbb0 : b0 ≠ '*' := (hbt.1.2 b0 (List.mem_cons_self _ _)).1
    show ((matchStars 2 ('*' :: b0 :: (b2 ++ ('*' :: (t ++ spanText 1 rest))))).isSome ||
      searchStars 2 (b0 :: (b2 ++ ('*' :: (t ++ spanText 1 rest))))) = false
    rw [matchStars2_second '*' hbb0]
    simp only [Option.isSome_none, Bool.false_or]
    rw [show (b0 :: (b2 ++ ('*' :: (t ++ spanText 1 rest)))) =
        ((b0 :: b2) ++ ('*' :: (t ++ spanText 1 rest))) from rfl]
    rw [searchStars_append_left (by decide) _ (fun x hx => (hbt.1.2 x hx).1)]
    cases rest with
    | nil =>
      cases t with
      | nil => decide
      | cons c0 c2 =>
        have hc0 : c0 ≠ '*' := ht c0 (List.mem_cons_self _ _)
        show ((matchStars 2 ('*' :: c0 :: (c2 ++ spanText 1 []))).isSome ||
          searchStars 2 (c0 :: (c2 ++ spanText 1 []))) = false
        rw [matchStars2_second '*' hc0]
        simp only [Option.isSome_none, Bool.false_or]
        rw [show (c0 :: (c2 ++ spanText 1 ([] : List (List Char × List Char)))) =
            ((c0 :: c2) ++ spanText 1 ([] : List (List Char × List Char))) from rfl]
        rw [show spanText 1 ([] : List (List Char × List Char)) = [] from rfl,
          List.append_nil]
        exact searchStars_nonstar (by decide) ht
    | cons q rest2 =>
      have htne : t ≠ [] := hmid.1
      obtain ⟨c0, c2, rfl⟩ := List.exists_cons_of_ne_nil htne
      have hc0 : c0 ≠ '*' := ht c0 (List.mem_cons_self _ _)
      show ((matchStars 2 ('*' :: c0 :: (c2 ++ spanText 1 (q :: rest2)))).isSome ||
        searchStars 2 (c0 :: (c2 ++ spanText 1 (q :: rest2)))) = false
      rw [matchStars2_second '*' hc0]
      simp only [Option.isSome_none, Bool.false_or]
      rw [show (c0 :: (c2 ++ spanText 1 (q :: rest2))) =
          ((c0 :: c2) ++ spanText 1 (q :: rest2)) from rfl]
      exact ih (c0 :: c2) ht hrest hmid.2

theorem headerLine_cascade (ind raw v : List Char)
    (hf3 : fullmatchStars 3 raw = none) (hf2 : fullmatchStars 2 raw = none)
    (hf1 : fullmatchStars 1 raw = none) :
    headerLine ind raw v =
      if searchStars 3 raw then ind ++ wrapBoldItalic (subStars 3 raw)
      else if searchStars 2 raw then ind ++ wrapBold (subStars 2 raw)
      else if searchStars 1 raw then ind ++ wrapBoldItalic (subStars 1 raw)
      else ind ++ wrapBold (v.filter fun c => c ≠ '*') := by
  unfold headerLine
  rw [hf3, hf2, hf1]

/-- C2 counterexample: for a HEADER token whose raw text "a **b** c" is not
fully wrapped but contains the embedded 2-asterisk span "**b**", the claim
as stated predicts the bold of only the inner text of that first span,
"*b*", discarding the rest; the code instead emits "*a b c*", keeping the
text around the span. -/
theorem C2_counterexample :
    render [Token.header none (some ("a **b** c".toList)) ("a b c".toList)] =
      ("*a b c*".toList) ∧
    render [Token.header none (some ("a **b** c".toList)) ("a b c".toList)] ≠
      ("*b*".toList) :=
  ⟨by decide, by decide⟩

/-- C2 amended: for a HEADER token whose raw text is not fully wrapped in
1, 2 or 3 asterisks (the three full-string patterns fail) and is built of
asterisk-free text interleaved with one or more embedded asterisk-wrapped
spans, the renderer keeps the ENTIRE raw text and replaces EVERY
non-overlapping span in place by its inner text — nothing outside the
matches is discarded — wrapping the whole resulting string in bold+italic
for 3-asterisk spans, bold for 2-asterisk spans, and bold+italic for
1-asterisk spans (for 2- and 1-asterisk spans the spans must not be
adjacent, so that no longer asterisk run arises). -/
theorem C2_amended (i : Option Nat) (v t0 : List Char)
    (L : List (List Char × List Char)) (hL : L ≠ [])
    (ht0 : ∀ x ∈ t0, x ≠ '*') (hgood : goodSpans L) :
    (fullmatchStars 3 (t0 ++ spanText 3 L) = none →
      fullmatchStars 2 (t0 ++ spanText 3 L) = none →
      fullmatchStars 1 (t0 ++ spanText 3 L) = none →
      render [Token.header i (some (t0 ++ spanText 3 L)) v] =
        List.replicate (i.getD 0) ' ' ++ wrapBoldItalic (t0 ++ spanSub L)) ∧
    (midFlanksNonempty L →
      fullmatchStars 3 (t0 ++ spanText 2 L) = none →
      fullmatchStars 2 (t0 ++ spanText 2 L) = none →
      fullmatchStars 1 (t0 ++ spanText 2 L) = none →
      render [Token.header i (some (t0 ++ spanText 2 L)) v] =
        List.replicate (i.getD 0) ' ' ++ wrapBold (t0 ++ spanSub L)) ∧
    (midFlanksNonempty L →
      fullmatchStars 3 (t0 ++ spanText 1 L) = none →
      fullmatchStars 2 (t0 ++ spanText 1 L) = none →
      fullmatchStars 1 (t0 ++ spanText 1 L) = none →
      render [Token.header i (some (t0 ++ spanText 1 L)) v] =
        List.replicate (i.getD 0) ' ' ++ wrapBoldItalic (t0 ++ spanSub L)) := by
  obtain ⟨p, rest, rfl⟩ := List.exists_cons_of_ne_nil hL
  obtain ⟨b, t⟩ := p
  have hbt := hgood (b, t) (List.mem_cons_self _ _)
  refine ⟨fun hf3 hf2 hf1 => ?_, fun hmid hf3 hf2 hf1 => ?_,
    fun hmid hf3 hf2 hf1 => ?_⟩
  · show headerLine (List.replicate (i.getD 0) ' ')
        (t0 ++ spanText 3 ((b, t) :: rest)) v = _
    rw [headerLine_cascade _ _ _ hf3 hf2 hf1]
    rw [searchStars_spans (k := 3) (by decide) t0 ht0 b t rest hbt.1.1 hbt.1.2]
    simp only [if_true]
    rw [subStars_spans (k := 3) (by decide) _ t0 ht0 hgood]
  · show headerLine (List.replicate (i.getD 0) ' ')
        (t0 ++ spanText 2 ((b, t) :: rest)) v = _
    rw [headerLine_cascade _ _ _ hf3 hf2 hf1]
    rw [searchStars3_false_spans2 _ t0 ht0 hgood hmid]
    rw [searchStars_spans (k := 2) (by decide) t0 ht0 b t rest hbt.1.1 hbt.1.2]
    simp only [Bool.false_eq_true, if_false, if_true]
    rw [subStars_spans (k := 2) (by decide) _ t0 ht0 hgood]
  · show headerLine (List.replicate (i.getD 0) ' ')
        (t0 ++ spanText 1 ((b, t) :: rest)) v = _
    rw [headerLine_cascade _ _ _ hf3 hf2 hf1]
    rw [searchStars3_false_spans1 _ t0 ht0 hgood hmid]
    rw [searchStars2_false_spans1 _ t0 ht0 hgood hmid]
    rw [searchStars_spans (k := 1) (by decide) t0 ht0 b t rest hbt.1.1 hbt.1.2]
    simp only [Bool.false_eq_true, if_false, if_true]
    rw [subStars_spans (k := 1) (by decide) _ t0 ht0 hgood]

/-- C2 amended witness: the 2-asterisk part applied to the raw text
"**b** m **c** d", which starts with a span and contains two spans; the
output keeps all flank text and substitutes both spans: "*b m c d*". -/
theorem C2_amended_witness :
    render [Token.header none
        (some (([] : List Char) ++
          spanText 2 [("b".toList, " m ".toList), ("c".toList, " d".toList)]))
        ("x".toList)] =
      List.replicate ((none : Option Nat).getD 0) ' ' ++
        wrapBold (([] : List Char) ++
          spanSub [("b".toList, " m ".toList), ("c".toList, " d".toList)]) :=
  (C2_amended none ("x".toList) []
      [("b".toList, " m ".toList), ("c".toList, " d".toList)]
      (by decide) (by decide) (by unfold goodSpans; decide)).2.1
    ⟨by decide, trivial⟩ (by decide) (by decide) (by decide)

end MD2Slack
